import Mathlib

/-!
Verification development for the `greentic-session` multi-tenant session store.

The Rust sources are shallowly embedded:
* `src/src/model.rs` — `Session`, `Cas`, outbox normalization (CAS family);
* `src/src/redis_store.rs` — the CAS-protocol Redis store (`put`, `update_cas`),
  whose server-side Lua script is embedded as the pure state transformer
  `RedisStore.update_cas`;
* `src/src/inmemory.rs` — the routing-family in-memory store;
* `src/src/mapping.rs` — deterministic SHA-256 session-key derivation.

Machine integers are embedded as `Nat` with explicit reductions modulo
`2 ^ 64` (`u64` CAS counters) and `2 ^ 32` (SHA-256 words).  Time instants are
embedded as explicit `now` parameters (`Int` for wall-clock seconds, `Nat` for
monotonic instants).  Redis / heap state is embedded as total functions from
keys to optional records, threaded explicitly through every operation.
-/

/-- The modulus of Rust's `u64`. -/
def U64 : Nat := 2 ^ 64

/-- The modulus of a 32-bit SHA-256 word. -/
def U32 : Nat := 2 ^ 32

/-- `Cas` (`model.rs`): a compare-and-set token, a `u64` counter. -/
abbrev Cas : Type := Nat

/-- `Cas::initial()` — CAS value assigned to newly created records. -/
def Cas.initial : Cas := (1 : Nat)

/-- `Cas::none()` — sentinel CAS used when the value is absent. -/
def Cas.none : Cas := (0 : Nat)

/-- `Cas::next()` — `self.0.wrapping_add(1)`. -/
def Cas.next (c : Cas) : Cas := ((c : Nat) + 1) % U64

/-- `OutboxEntry` (`model.rs`): outbox entry, deduped by `(seq, payload hash)`.
`payload_sha256` is `[u8; 32]`, embedded as a list of bytes; `created_at` is a
UTC instant in seconds. -/
structure OutboxEntry where
  seq : Nat
  payload_sha256 : List Nat
  created_at : Int
deriving DecidableEq

/-- The deduplication key of an outbox entry: `(entry.seq, entry.payload_sha256)`. -/
def OutboxEntry.dkey (e : OutboxEntry) : Nat × List Nat := (e.seq, e.payload_sha256)

/-- The retain loop of `Session::dedupe_outbox`: keep an entry iff its
`(seq, payload_sha256)` pair was not seen before (`seen.insert` returns
`true` on first insertion). -/
def dedupeGo (seen : List (Nat × List Nat)) : List OutboxEntry → List OutboxEntry
  | [] => []
  | e :: rest =>
    if e.dkey ∈ seen then dedupeGo seen rest
    else e :: dedupeGo (e.dkey :: seen) rest

/-- `Session::dedupe_outbox` (`model.rs`): deduplicates by `(seq, payload_sha256)`
while maintaining first-wins ordering. -/
def dedupeOutbox (outbox : List OutboxEntry) : List OutboxEntry := dedupeGo [] outbox

/-- `SessionCursor` (`model.rs`). -/
structure SessionCursor where
  flow_id : String
  node_id : String
  wait_reason : Option String
  outbox_seq : Nat
deriving DecidableEq

/-- `SessionMeta` (`model.rs`); `labels` is an opaque JSON map, embedded as
an association list. -/
structure SessionMeta where
  tenant_id : String
  team_id : Option String
  user_id : Option String
  labels : List (String × String)
deriving DecidableEq

/-- `Session` (`model.rs`): the CAS-family stored record.  `id` is the
rendered UUID, `updated_at` a UTC instant in seconds, `ttl_secs : u32`. -/
structure Session where
  id : String
  key : String
  cursor : SessionCursor
  meta : SessionMeta
  outbox : List OutboxEntry
  updated_at : Int
  ttl_secs : Nat
deriving DecidableEq

/-- `Session::normalize` (`model.rs`): dedupe the outbox; the `ttl_secs == 0`
branch re-asserts `ttl_secs = 0`, leaving the TTL unchanged in all cases. -/
def Session.normalize (s : Session) : Session := { s with outbox := dedupeOutbox s.outbox }

/-- `Session::expires_at` (`model.rs`): `None` when `ttl_secs == 0`, else
`updated_at + ttl_secs`. -/
def Session.expires_at (s : Session) : Option Int :=
  if s.ttl_secs = 0 then none else some (s.updated_at + (s.ttl_secs : Int))

/-- Pointwise update of a function-backed map. -/
def fupdate {α β : Type} [DecidableEq α] (f : α → β) (a : α) (b : β) : α → β :=
  fun x => if x = a then b else f x

namespace RedisStore

/-- `SessionEnvelope` (`redis_store.rs`): the JSON payload `{cas, session}`
stored at the primary CAS-layout key. -/
structure SessionEnvelope where
  cas : Nat
  session : Session
deriving DecidableEq

/-- `SessionEnvelope::new` — normalizes the session before storing. -/
def SessionEnvelope.new (session : Session) (cas : Cas) : SessionEnvelope :=
  { cas := (cas : Nat), session := session.normalize }

/-- The observable Redis state used by the CAS family: the primary records
(`NS:<tenant>:<session_key>` → envelope) and the tenant lookup side-index
(`NS:lookup:<session_key>` → tenant).  Redis-side TTL metadata is not part of
any claim and is not modelled. -/
structure CasState where
  data : String → Option SessionEnvelope
  lookup : String → Option String

/-- `RedisSessionStore::data_key` — `"{namespace}:{tenant_id}:{key}"`. -/
def data_key (ns tenant_id key : String) : String := ns ++ ":" ++ tenant_id ++ ":" ++ key

/-- `RedisSessionStore::lookup_key` — `"{namespace}:lookup:{key}"`. -/
def lookup_key (ns key : String) : String := ns ++ ":" ++ "lookup" ++ ":" ++ key

/-- `RedisSessionStore::put` (`redis_store.rs`): set `updated_at := now`,
normalize, bump the CAS of an existing envelope (else `Cas::initial()`),
store the new envelope and sync the lookup side-index.  Returns the new CAS
and the post-state. -/
def put (ns : String) (st : CasState) (session : Session) (now : Int) : Cas × CasState :=
  let s1 := Session.normalize { session with updated_at := now }
  let rkey := data_key ns s1.meta.tenant_id s1.key
  let cas : Cas :=
    match st.data rkey with
    | some envelope => Cas.next envelope.cas
    | none => Cas.initial
  let envelope := SessionEnvelope.new s1 cas
  (cas,
    { data := fupdate st.data rkey (some envelope),
      lookup := fupdate st.lookup (lookup_key ns s1.key) (some s1.meta.tenant_id) })

/-- `RedisSessionStore::update_cas` (`redis_store.rs`) together with the
`UPDATE_LUA` script it invokes: if no record exists at the key the script
returns status `0` and the client purges the lookup side-index and returns
`Err(Cas::none())`; if the stored CAS differs from `expected` the script
returns status `1` with the current CAS and the client returns
`Err(current)` leaving the record unchanged; on a match the script stores
the new payload and the client returns `Ok(new_cas)` where
`new_cas = expected.next()`.  (`touch_lookup` on success only adjusts
Redis-side TTL metadata, which is not modelled.) -/
def update_cas (ns : String) (st : CasState) (session : Session) (expected : Cas)
    (now : Int) : Except Cas Cas × CasState :=
  let s1 := Session.normalize { session with updated_at := now }
  let rkey := data_key ns s1.meta.tenant_id s1.key
  let new_cas := Cas.next expected
  let envelope := SessionEnvelope.new s1 new_cas
  match st.data rkey with
  | none =>
    (Except.error Cas.none, { st with lookup := fupdate st.lookup (lookup_key ns s1.key) none })
  | some current =>
    if current.cas = (expected : Nat) then
      (Except.ok new_cas, { st with data := fupdate st.data rkey (some envelope) })
    else
      (Except.error current.cas, st)

end RedisStore

/-- Modelled from the spec: `TenantCtx` from the external `greentic_types`
crate — `{env, tenant_id, team?, user?}` where team and user each have a
primary (`team_id`, `user_id`) and a legacy (`team`, `user`) slot; identifiers
are opaque strings. -/
structure TenantCtx where
  env : String
  tenant_id : String
  team_id : Option String
  team : Option String
  user_id : Option String
  user : Option String
deriving DecidableEq

/-- Modelled from the spec: `SessionData` from the external `greentic_types`
crate — the embedded tenant context plus the payload the routing backends
treat opaquely (flow id, serialized execution state, outbox of
`{seq, payload_sha256, created_at}` entries). -/
structure SessionData where
  tenant_ctx : TenantCtx
  flow_id : String
  context_json : String
  outbox : List OutboxEntry
deriving DecidableEq

/-- Modelled from the spec: `ReplyScope` from this crate's root module (not
present under `src/`) — a routing envelope whose stable `scope_hash()` digest
is the only part the stores consume; embedded as that digest. -/
structure ReplyScope where
  scope_hash : String
deriving DecidableEq

/-- `ErrorCode` (`greentic_types`, re-exported by `error.rs`): the closed set
of error kinds the store surfaces. -/
inductive ErrorCode where
  | invalidInput
  | notFound
  | unavailable
  | internal
deriving DecidableEq

/-- `GreenticError` (`greentic_types`): an error kind plus message. -/
structure GreenticError where
  code : ErrorCode
  msg : String
deriving DecidableEq

/-- `invalid_argument` (`error.rs`). -/
def invalid_argument (msg : String) : GreenticError := ⟨ErrorCode.invalidInput, msg⟩

/-- `not_found` (`error.rs`). -/
def not_found (key : String) : GreenticError :=
  ⟨ErrorCode.notFound, "session " ++ key ++ " was not found"⟩

namespace InMemory

/-- `UserLookupKey` (`inmemory.rs`). -/
structure UserLookupKey where
  env : String
  tenant : String
  team : Option String
  user : String
deriving DecidableEq

/-- `ScopeLookupKey` (`inmemory.rs`). -/
structure ScopeLookupKey where
  env : String
  tenant : String
  team : Option String
  user : String
  scope_hash : String
deriving DecidableEq

/-- `SessionEntry` (`inmemory.rs`): the stored record plus its expiry
deadline (a monotonic instant) and its index back-references. -/
structure SessionEntry where
  data : SessionData
  expires_at : Option Nat
  wait_user : Option UserLookupKey
  scope_key : Option ScopeLookupKey
deriving DecidableEq

/-- `ScopeEntry` (`inmemory.rs`). -/
structure ScopeEntry where
  session_key : String
  expires_at : Option Nat
deriving DecidableEq

/-- The three maps of `InMemorySessionStore`.  `user_waits` values are sets;
an empty list is observationally "absent" (the code removes empty sets). -/
structure State where
  sessions : String → Option SessionEntry
  user_waits : UserLookupKey → List String
  scope_index : ScopeLookupKey → Option ScopeEntry

/-- `InMemorySessionStore::normalize_team` — `ctx.team_id.or(ctx.team)`. -/
def normalize_team (ctx : TenantCtx) : Option String := ctx.team_id.or ctx.team

/-- `InMemorySessionStore::normalize_user` — `ctx.user_id.or(ctx.user)`. -/
def normalize_user (ctx : TenantCtx) : Option String := ctx.user_id.or ctx.user

/-- `InMemorySessionStore::is_expired` — a deadline is expired when
`now >= deadline`; `None` never expires. -/
def is_expired (now : Nat) (deadline : Option Nat) : Bool :=
  match deadline with
  | some value => now ≥ value
  | none => false

/-- Option display used by `ctx_mismatch` — `map(as_str).unwrap_or("-")`. -/
def orDash (v : Option String) : String := v.getD "-"

/-- `InMemorySessionStore::ctx_mismatch` — the `InvalidInput` error naming the
mismatched fields. -/
def ctx_mismatch (expected provided : TenantCtx) (reason : String) : GreenticError :=
  invalid_argument
    ("tenant context mismatch (" ++ reason ++ "): expected env=" ++ expected.env ++
      ", tenant=" ++ expected.tenant_id ++ ", team=" ++ orDash (normalize_team expected) ++
      ", user=" ++ orDash (normalize_user expected) ++ ", got env=" ++ provided.env ++
      ", tenant=" ++ provided.tenant_id ++ ", team=" ++ orDash (normalize_team provided) ++
      ", user=" ++ orDash (normalize_user provided))

/-- `InMemorySessionStore::ensure_alignment` — caller context versus the
context stored inside the data: env and tenant must be equal, normalized
teams must be equal, and when the data carries a (normalized) user the caller
must carry the same one. -/
def ensure_alignment (ctx : TenantCtx) (data : SessionData) : Except GreenticError Unit :=
  let stored := data.tenant_ctx
  if ctx.env ≠ stored.env ∨ ctx.tenant_id ≠ stored.tenant_id then
    Except.error (ctx_mismatch stored ctx "env/tenant must match")
  else if normalize_team ctx ≠ normalize_team stored then
    Except.error (ctx_mismatch stored ctx "team must match")
  else
    match normalize_user stored with
    | some stored_user =>
      match normalize_user ctx with
      | none =>
        Except.error
          (ctx_mismatch stored ctx "user required by session but missing in caller context")
      | some provided_user =>
        if stored_user ≠ provided_user then
          Except.error (ctx_mismatch stored ctx "user must match stored session")
        else Except.ok ()
    | none => Except.ok ()

/-- `InMemorySessionStore::ensure_ctx_preserved` — an update may not change
env, tenant, or the normalized team, and may not introduce, change, or remove
the normalized user. -/
def ensure_ctx_preserved (existing candidate : TenantCtx) : Except GreenticError Unit :=
  if existing.env ≠ candidate.env ∨ existing.tenant_id ≠ candidate.tenant_id then
    Except.error (ctx_mismatch existing candidate "env/tenant cannot change for an existing session")
  else if normalize_team existing ≠ normalize_team candidate then
    Except.error (ctx_mismatch existing candidate "team cannot change for an existing session")
  else
    match normalize_user existing, normalize_user candidate with
    | some a, some b =>
      if a = b then Except.ok ()
      else Except.error (ctx_mismatch existing candidate "user cannot change for an existing session")
    | some _, none =>
      Except.error (ctx_mismatch existing candidate "user cannot change for an existing session")
    | none, some _ =>
      Except.error (ctx_mismatch existing candidate "user cannot be introduced when none was stored")
    | none, none => Except.ok ()

/-- `InMemorySessionStore::ensure_user_matches` — when registering a wait the
ctx's normalized user (if any) and the data's normalized user must both equal
`user`, and the data must carry a user. -/
def ensure_user_matches (ctx : TenantCtx) (user : String) (data : SessionData) :
    Except GreenticError Unit :=
  if (match normalize_user ctx with
      | some ctx_user => ctx_user != user
      | none => false) then
    Except.error (invalid_argument "user must match tenant context when registering a wait")
  else
    match normalize_user data.tenant_ctx with
    | some stored_user =>
      if stored_user ≠ user then
        Except.error (invalid_argument "user must match session data when registering a wait")
      else Except.ok ()
    | none => Except.error (invalid_argument "user required by wait but missing in session data")

/-- `InMemorySessionStore::user_lookup_key` / `UserLookupKey::from_ctx`. -/
def user_lookup_key (ctx : TenantCtx) (user : String) : UserLookupKey :=
  ⟨ctx.env, ctx.tenant_id, ctx.team_id.or ctx.team, user⟩

/-- `InMemorySessionStore::scope_lookup_key` / `ScopeLookupKey::from_ctx`. -/
def scope_lookup_key (ctx : TenantCtx) (user : String) (scope : ReplyScope) : ScopeLookupKey :=
  ⟨ctx.env, ctx.tenant_id, ctx.team_id.or ctx.team, user, scope.scope_hash⟩

/-- `InMemorySessionStore::remove_from_user_waits`: drop `key` from the user's
wait set (an empty set and an absent set are observationally equal). -/
def remove_from_user_waits (st : State) (lookup : UserLookupKey) (key : String) : State :=
  { st with
    user_waits := fupdate st.user_waits lookup ((st.user_waits lookup).filter (fun k => k != key)) }

/-- `InMemorySessionStore::remove_scope_entry`. -/
def remove_scope_entry (st : State) (skey : ScopeLookupKey) : State :=
  { st with scope_index := fupdate st.scope_index skey none }

/-- `InMemorySessionStore::purge_expired_session`: drop the entry's index
back-references. -/
def purge_expired_session (st : State) (key : String) (entry : SessionEntry) : State :=
  let st1 :=
    match entry.wait_user with
    | some user_lookup => remove_from_user_waits st user_lookup key
    | none => st
  match entry.scope_key with
  | some skey => remove_scope_entry st1 skey
  | none => st1

/-- `InMemorySessionStore::create_session`: enforce alignment, then insert a
fresh entry (no TTL, no index back-references) under the freshly generated
`key` (the UUID generation of `next_key` is embedded as the `key` input). -/
def create_session (st : State) (ctx : TenantCtx) (data : SessionData) (key : String) :
    Except GreenticError String × State :=
  match ensure_alignment ctx data with
  | Except.error e => (Except.error e, st)
  | Except.ok _ =>
    let entry : SessionEntry := ⟨data, none, none, none⟩
    (Except.ok key, { st with sessions := fupdate st.sessions key (some entry) })

/-- `InMemorySessionStore::get_session`: an expired entry is removed and its
index back-references purged, observing the record as absent; a live entry's
data is returned with the state unchanged.  (The Rust body never constructs
an `Err`, so the result is embedded as a plain `Option`.) -/
def get_session (st : State) (now : Nat) (key : String) : Option SessionData × State :=
  match st.sessions key with
  | none => (none, st)
  | some entry =>
    if is_expired now entry.expires_at then
      let st1 := { st with sessions := fupdate st.sessions key none }
      (none, purge_expired_session st1 key entry)
    else
      (some entry.data, st)

/-- `InMemorySessionStore::update_session`: `NotFound` for an absent key,
`ensure_ctx_preserved` against the stored context, then replace the entry's
data while keeping `expires_at`, `wait_user` and `scope_key` of the previous
entry. -/
def update_session (st : State) (key : String) (data : SessionData) :
    Except GreenticError Unit × State :=
  match st.sessions key with
  | none => (Except.error (not_found key), st)
  | some previous =>
    match ensure_ctx_preserved previous.data.tenant_ctx data.tenant_ctx with
    | Except.error e => (Except.error e, st)
    | Except.ok _ =>
      let entry : SessionEntry := ⟨data, previous.expires_at, previous.wait_user, previous.scope_key⟩
      (Except.ok (), { st with sessions := fupdate st.sessions key (some entry) })

/-- `HashSet::insert` on the wait set. -/
def insertSet (key : String) (l : List String) : List String :=
  if key ∈ l then l else key :: l

/-- The unconditional tail of `InMemorySessionStore::register_wait`: insert the
session entry with its back-references, add the key to the user's wait set,
evict a different session previously registered at the same scope from the
wait set, and point the scope index at the new session. -/
def register_wait_commit (st : State) (user_lookup : UserLookupKey) (skey : ScopeLookupKey)
    (session_key : String) (data : SessionData) (expires_at : Option Nat) : State :=
  let entry : SessionEntry := ⟨data, expires_at, some user_lookup, some skey⟩
  let st1 := { st with sessions := fupdate st.sessions session_key (some entry) }
  let st2 :=
    { st1 with
      user_waits :=
        fupdate st1.user_waits user_lookup (insertSet session_key (st1.user_waits user_lookup)) }
  let st3 :=
    match st2.scope_index skey with
    | some existing =>
      if existing.session_key ≠ session_key then
        remove_from_user_waits st2 user_lookup existing.session_key
      else st2
    | none => st2
  { st3 with scope_index := fupdate st3.scope_index skey (some ⟨session_key, expires_at⟩) }

/-- `InMemorySessionStore::register_wait`: enforce alignment and the wait-user
rule; when the session key already exists, enforce context preservation and
drop the old entry's index back-references; then commit.  The TTL deadline
`ttl_deadline` is `now + ttl`. -/
def register_wait (st : State) (now : Nat) (ctx : TenantCtx) (user : String) (scope : ReplyScope)
    (session_key : String) (data : SessionData) (ttl : Option Nat) :
    Except GreenticError Unit × State :=
  match ensure_alignment ctx data with
  | Except.error e => (Except.error e, st)
  | Except.ok _ =>
  match ensure_user_matches ctx user data with
  | Except.error e => (Except.error e, st)
  | Except.ok _ =>
    let user_lookup := user_lookup_key ctx user
    let skey := scope_lookup_key ctx user scope
    let expires_at := ttl.map (fun t => now + t)
    match st.sessions session_key with
    | some existing =>
      match ensure_ctx_preserved existing.data.tenant_ctx data.tenant_ctx with
      | Except.error e => (Except.error e, st)
      | Except.ok _ =>
        let stA :=
          match existing.wait_user with
          | some existing_user => remove_from_user_waits st existing_user session_key
          | none => st
        let stB :=
          match existing.scope_key with
          | some existing_scope => remove_scope_entry stA existing_scope
          | none => stA
        (Except.ok (), register_wait_commit stB user_lookup skey session_key data expires_at)
    | none =>
      (Except.ok (), register_wait_commit st user_lookup skey session_key data expires_at)

/-- `InMemorySessionStore::find_wait_by_scope`: resolve the scope entry,
pruning expired, dangling, or tenant/user-mismatched entries (returning
`None`, never an error — the Rust body never constructs an `Err`), and return
the session key only for a live, fully matching entry. -/
def find_wait_by_scope (st : State) (now : Nat) (ctx : TenantCtx) (user : String)
    (scope : ReplyScope) : Option String × State :=
  let skey := scope_lookup_key ctx user scope
  match st.scope_index skey with
  | none => (none, st)
  | some entry =>
    if is_expired now entry.expires_at then
      let st1 := remove_scope_entry st skey
      let st2 := remove_from_user_waits st1 (user_lookup_key ctx user) entry.session_key
      match st2.sessions entry.session_key with
      | some session_entry =>
        let st3 := { st2 with sessions := fupdate st2.sessions entry.session_key none }
        (none, purge_expired_session st3 entry.session_key session_entry)
      | none => (none, st2)
    else
      match get_session st now entry.session_key with
      | (none, st1) =>
        let st2 := remove_scope_entry st1 skey
        (none, remove_from_user_waits st2 (user_lookup_key ctx user) entry.session_key)
      | (some session, st1) =>
        let stored_ctx := session.tenant_ctx
        if stored_ctx.env ≠ ctx.env ∨ stored_ctx.tenant_id ≠ ctx.tenant_id ∨
            normalize_team stored_ctx ≠ normalize_team ctx then
          let st2 := remove_scope_entry st1 skey
          (none, remove_from_user_waits st2 (user_lookup_key ctx user) entry.session_key)
        else if (match normalize_user stored_ctx with
            | some stored_user => stored_user != user
            | none => false) then
          let st2 := remove_scope_entry st1 skey
          (none, remove_from_user_waits st2 (user_lookup_key ctx user) entry.session_key)
        else
          (some entry.session_key, st1)

/-- The loop body of `InMemorySessionStore::list_waits_for_user` over the
snapshot of the user's wait-set keys: load each session (lazily expiring),
prune set members that are dangling or whose stored context mismatches, and
keep the rest. -/
def list_waits_go (now : Nat) (ctx : TenantCtx) (user : String) (lookup : UserLookupKey) :
    List String → State → List String × State
  | [], st => ([], st)
  | key :: rest, st =>
    match get_session st now key with
    | (none, st1) => list_waits_go now ctx user lookup rest (remove_from_user_waits st1 lookup key)
    | (some data, st1) =>
      let stored_ctx := data.tenant_ctx
      if stored_ctx.env ≠ ctx.env ∨ stored_ctx.tenant_id ≠ ctx.tenant_id ∨
          normalize_team stored_ctx ≠ normalize_team ctx then
        list_waits_go now ctx user lookup rest (remove_from_user_waits st1 lookup key)
      else if (match normalize_user stored_ctx with
          | some stored_user => stored_user != user
          | none => false) then
        list_waits_go now ctx user lookup rest (remove_from_user_waits st1 lookup key)
      else
        let (available, st2) := list_waits_go now ctx user lookup rest st1
        (key :: available, st2)

/-- `InMemorySessionStore::list_waits_for_user` (never constructs an `Err`). -/
def list_waits_for_user (st : State) (now : Nat) (ctx : TenantCtx) (user : String) :
    List String × State :=
  let lookup := user_lookup_key ctx user
  list_waits_go now ctx user lookup (st.user_waits lookup) st

/-- `InMemorySessionStore::find_by_user`: no wait → `Ok(None)`; exactly one →
re-load the session (`NotFound` should it have vanished) and return it; more
than one → the `InvalidInput` "multiple waits" error. -/
def find_by_user (st : State) (now : Nat) (ctx : TenantCtx) (user : String) :
    Except GreenticError (Option (String × SessionData)) × State :=
  let r := list_waits_for_user st now ctx user
  match r.1, r.2 with
  | [], st1 => (Except.ok none, st1)
  | [key], st1 =>
    (match get_session st1 now key with
     | (some data, st2) => (Except.ok (some (key, data)), st2)
     | (none, st2) => (Except.error (not_found key), st2))
  | _ :: _ :: _, st1 =>
    (Except.error (invalid_argument "multiple waits exist for user; use scope-based routing instead"),
      st1)

end InMemory

/-! ## SHA-256 (the `sha2` crate as used by `mapping.rs`), per FIPS 180-4 -/

namespace Sha256

/-- 32-bit right rotation. -/
def rotr (w n : Nat) : Nat := ((w >>> n) ||| (w <<< (32 - n))) % U32

/-- 32-bit complement. -/
def bnot (w : Nat) : Nat := Nat.xor w (U32 - 1)

/-- Round state `a..h`. -/
structure Hash where
  a : Nat
  b : Nat
  c : Nat
  d : Nat
  e : Nat
  f : Nat
  g : Nat
  h : Nat
deriving DecidableEq

/-- Initial hash value `H(0)`. -/
def h0 : Hash :=
  ⟨1779033703, 3144134277, 1013904242, 2773480762, 1359893119, 2600822924, 528734635, 1541459225⟩

/-- The 64 round constants `K`. -/
def K : List Nat :=
  [1116352408, 1899447441, 3049323471, 3921009573,
   961987163, 1508970993, 2453635748, 2870763221,
   3624381080, 310598401, 607225278, 1426881987,
   1925078388, 2162078206, 2614888103, 3248222580,
   3835390401, 4022224774, 264347078, 604807628,
   770255983, 1249150122, 1555081692, 1996064986,
   2554220882, 2821834349, 2952996808, 3210313671,
   3336571891, 3584528711, 113926993, 338241895,
   666307205, 773529912, 1294757372, 1396182291,
   1695183700, 1986661051, 2177026350, 2456956037,
   2730485921, 2820302411, 3259730800, 3345764771,
   3516065817, 3600352804, 4094571909, 275423344,
   430227734, 506948616, 659060556, 883997877,
   958139571, 1322822218, 1537002063, 1747873779,
   1955562222, 2024104815, 2227730452, 2361852424,
   2428436474, 2756734187, 3204031479, 3329325298]

/-- Big-endian 32-bit words from bytes. -/
def bytesToWords : List Nat → List Nat
  | b0 :: b1 :: b2 :: b3 :: rest => (((b0 * 256 + b1) * 256 + b2) * 256 + b3) :: bytesToWords rest
  | _ => []

/-- One message-schedule extension step: append
`σ1(w[t-2]) + w[t-7] + σ0(w[t-15]) + w[t-16] mod 2^32`. -/
def scheduleStep (ws : List Nat) : List Nat :=
  let i := ws.length
  let w15 := ws.getD (i - 15) 0
  let w2 := ws.getD (i - 2) 0
  let s0 := Nat.xor (Nat.xor (rotr w15 7) (rotr w15 18)) (w15 >>> 3)
  let s1 := Nat.xor (Nat.xor (rotr w2 17) (rotr w2 19)) (w2 >>> 10)
  ws ++ [(ws.getD (i - 16) 0 + s0 + ws.getD (i - 7) 0 + s1) % U32]

/-- Extend the 16 block words by `n` further schedule words. -/
def buildSchedule : Nat → List Nat → List Nat
  | 0, ws => ws
  | n + 1, ws => buildSchedule n (scheduleStep ws)

/-- One compression round with schedule word `wt` and constant `kt`. -/
def round (s : Hash) (wt kt : Nat) : Hash :=
  let bigS1 := Nat.xor (Nat.xor (rotr s.e 6) (rotr s.e 11)) (rotr s.e 25)
  let ch := Nat.xor (Nat.land s.e s.f) (Nat.land (bnot s.e) s.g)
  let temp1 := (s.h + bigS1 + ch + kt + wt) % U32
  let bigS0 := Nat.xor (Nat.xor (rotr s.a 2) (rotr s.a 13)) (rotr s.a 22)
  let maj := Nat.xor (Nat.xor (Nat.land s.a s.b) (Nat.land s.a s.c)) (Nat.land s.b s.c)
  let temp2 := (bigS0 + maj) % U32
  ⟨(temp1 + temp2) % U32, s.a, s.b, s.c, (s.d + temp1) % U32, s.e, s.f, s.g⟩

/-- Compress one 64-byte block into the running hash. -/
def compress (h : Hash) (block : List Nat) : Hash :=
  let w := buildSchedule 48 (bytesToWords block)
  let s := (w.zip K).foldl (fun s p => round s p.1 p.2) h
  ⟨(h.a + s.a) % U32, (h.b + s.b) % U32, (h.c + s.c) % U32, (h.d + s.d) % U32,
   (h.e + s.e) % U32, (h.f + s.f) % U32, (h.g + s.g) % U32, (h.h + s.h) % U32⟩

/-- Fold `n` consecutive 64-byte blocks of `msg` into the hash. -/
def compressBlocks : Nat → List Nat → Hash → Hash
  | 0, _, h => h
  | n + 1, msg, h => compressBlocks n (msg.drop 64) (compress h (msg.take 64))

/-- Big-endian length-and-`0x80` padding to a multiple of 64 bytes; the bit
length is a `u64`. -/
def pad (msg : List Nat) : List Nat :=
  let bitLen := (msg.length * 8) % U64
  msg ++ 0x80 :: List.replicate ((119 - msg.length % 64) % 64) 0 ++
    [(bitLen >>> 56) % 256, (bitLen >>> 48) % 256, (bitLen >>> 40) % 256, (bitLen >>> 32) % 256,
     (bitLen >>> 24) % 256, (bitLen >>> 16) % 256, (bitLen >>> 8) % 256, bitLen % 256]

/-- Big-endian bytes of one 32-bit word. -/
def wordBytes (w : Nat) : List Nat :=
  [(w >>> 24) % 256, (w >>> 16) % 256, (w >>> 8) % 256, w % 256]

/-- The SHA-256 digest (32 bytes) of a byte string. -/
def digest (msg : List Nat) : List Nat :=
  let p := pad msg
  let f := compressBlocks (p.length / 64) p h0
  wordBytes f.a ++ wordBytes f.b ++ wordBytes f.c ++ wordBytes f.d ++
    wordBytes f.e ++ wordBytes f.f ++ wordBytes f.g ++ wordBytes f.h

end Sha256

/-- UTF-8 encoding of one scalar value (`str::as_bytes` in Rust). -/
def utf8Char (c : Char) : List Nat :=
  let n := c.toNat
  if n < 0x80 then [n]
  else if n < 0x800 then [0xC0 + n / 64, 0x80 + n % 64]
  else if n < 0x10000 then [0xE0 + n / 4096, 0x80 + (n / 64) % 64, 0x80 + n % 64]
  else [0xF0 + n / 262144, 0x80 + (n / 4096) % 64, 0x80 + (n / 64) % 64, 0x80 + n % 64]

/-- The UTF-8 bytes of a string. -/
def strBytes (s : String) : List Nat := (s.data.map utf8Char).flatten

/-- One lowercase hexadecimal digit. -/
def hexDigit : Nat → Char
  | 0 => '0' | 1 => '1' | 2 => '2' | 3 => '3' | 4 => '4' | 5 => '5' | 6 => '6' | 7 => '7'
  | 8 => '8' | 9 => '9' | 10 => 'a' | 11 => 'b' | 12 => 'c' | 13 => 'd' | 14 => 'e' | 15 => 'f'
  | _ + 16 => '0'

/-- `hex::encode` — lowercase hexadecimal of a byte string. -/
def hexEncode (bytes : List Nat) : String :=
  String.mk ((bytes.map (fun b => [hexDigit (b / 16), hexDigit (b % 16)])).flatten)

/-- `hex_sha` (`mapping.rs`): lowercase hex of the SHA-256 of the UTF-8 bytes. -/
def hex_sha (input : String) : String := hexEncode (Sha256.digest (strBytes input))

/-- `telegram_update_to_session_key` (`mapping.rs`): deterministic session key
from Telegram update fields — `SHA256_HEX("tg:" + bot + ":" + chat + ":" + user)`. -/
def telegram_update_to_session_key (bot_id chat_id user_id : String) : String :=
  hex_sha ("tg:" ++ bot_id ++ ":" ++ chat_id ++ ":" ++ user_id)

/-- `webhook_to_session_key` (`mapping.rs`). -/
def webhook_to_session_key (source subject id_hint : String) : String :=
  hex_sha ("wh:" ++ source ++ ":" ++ subject ++ ":" ++ id_hint)

/-! ## Spec-side predicates and concrete fixtures -/

/-- The alignment predicate `ensure_alignment` enforces, spelled out: env and
tenant equal, normalized teams equal, and any user carried by the data also
carried (equal) by the caller context. -/
def aligned (ctx stored : TenantCtx) : Prop :=
  ctx.env = stored.env ∧ ctx.tenant_id = stored.tenant_id ∧
  InMemory.normalize_team ctx = InMemory.normalize_team stored ∧
  ∀ su, InMemory.normalize_user stored = some su → InMemory.normalize_user ctx = some su

instance (ctx stored : TenantCtx) : Decidable (aligned ctx stored) := by
  unfold aligned
  exact inferInstance

/-- The context change `ensure_ctx_preserved` rejects, spelled out: env,
tenant, normalized team, or normalized user differ (the last covers a user
being introduced, removed, or changed). -/
def ctx_changed (existing candidate : TenantCtx) : Prop :=
  existing.env ≠ candidate.env ∨ existing.tenant_id ≠ candidate.tenant_id ∨
  InMemory.normalize_team existing ≠ InMemory.normalize_team candidate ∨
  InMemory.normalize_user existing ≠ InMemory.normalize_user candidate

instance (existing candidate : TenantCtx) : Decidable (ctx_changed existing candidate) := by
  unfold ctx_changed
  exact inferInstance

/-- A wait-set member is live and matching for `(ctx, user)` when its session
exists, is unexpired, its stored context matches `ctx` on env, tenant and
normalized team, and its stored user (if any) equals `user` — exactly the
conditions `list_waits_for_user` retains. -/
def live_match (sessions : String → Option InMemory.SessionEntry) (now : Nat)
    (ctx : TenantCtx) (user : String) (key : String) : Bool :=
  match sessions key with
  | none => false
  | some entry =>
    !(InMemory.is_expired now entry.expires_at) &&
    (entry.data.tenant_ctx.env == ctx.env) &&
    (entry.data.tenant_ctx.tenant_id == ctx.tenant_id) &&
    (InMemory.normalize_team entry.data.tenant_ctx == InMemory.normalize_team ctx) &&
    (match InMemory.normalize_user entry.data.tenant_ctx with
     | some stored_user => stored_user == user
     | none => true)

/-- The stored-context mismatch that makes `find_wait_by_scope` prune a
resolved session: env, tenant or normalized team differ from the caller's,
or a stored user differs from the given user. -/
def wait_mismatch (ctx : TenantCtx) (user : String) (stored : TenantCtx) : Prop :=
  stored.env ≠ ctx.env ∨ stored.tenant_id ≠ ctx.tenant_id ∨
  InMemory.normalize_team stored ≠ InMemory.normalize_team ctx ∨
  ∃ su, InMemory.normalize_user stored = some su ∧ su ≠ user

/-- Concrete fixtures for the CAS-family witnesses. -/
def cur0 : SessionCursor := ⟨"flow", "node", none, 0⟩

def meta0 : SessionMeta := ⟨"tenant", none, none, []⟩

def sess0 : Session := ⟨"id0", "key0", cur0, meta0, [], 0, 0⟩

def env1 : RedisStore.SessionEnvelope := ⟨1, sess0⟩

def casSt1 : RedisStore.CasState :=
  ⟨fupdate (fun _ => none) (RedisStore.data_key "ns" "tenant" "key0") (some env1),
   fun _ => some "tenant"⟩

/-- An empty in-memory store. -/
def emptyState : InMemory.State := ⟨fun _ => none, fun _ => [], fun _ => none⟩

/-- A tenant context carrying a user in the primary slot. -/
def ctxU : TenantCtx := ⟨"dev", "tenant", none, none, some "u1", none⟩

/-- The same context without any user. -/
def ctxNoU : TenantCtx := ⟨"dev", "tenant", none, none, none, none⟩

/-- Session data whose embedded context carries no user. -/
def dataNoU : SessionData := ⟨ctxNoU, "flow", "{}", []⟩

/-- A CAS-family session whose meta carries user `u1`. -/
def sessU1 : Session := ⟨"id0", "key0", cur0, ⟨"tenant", none, some "u1", []⟩, [], 0, 0⟩

/-- The same session with its meta user changed to `u2`. -/
def sessU2 : Session := ⟨"id0", "key0", cur0, ⟨"tenant", none, some "u2", []⟩, [], 0, 0⟩

/-- A CAS-family store holding `sessU1` at `cas = 1`. -/
def casStU1 : RedisStore.CasState :=
  ⟨fupdate (fun _ => none) (RedisStore.data_key "ns" "tenant" "key0") (some ⟨1, sessU1⟩),
   fun _ => some "tenant"⟩

/-- Routing-family session data carrying user `u1`. -/
def dataU1 : SessionData := ⟨⟨"dev", "tenant", none, none, some "u1", none⟩, "flow", "{}", []⟩

/-- The same data with the user changed to `u2`. -/
def dataU2 : SessionData := ⟨⟨"dev", "tenant", none, none, some "u2", none⟩, "flow", "{}", []⟩

/-- An in-memory store holding `dataU1` at key `k`. -/
def stWithK : InMemory.State :=
  ⟨fupdate (fun _ => none) "k" (some ⟨dataU1, none, none, none⟩), fun _ => [], fun _ => none⟩

/-- An in-memory store holding an entry at key `k` that expires at instant 10. -/
def stWithExp : InMemory.State :=
  ⟨fupdate (fun _ => none) "k" (some ⟨dataU1, some 10, none, none⟩), fun _ => [], fun _ => none⟩

/-- An outbox entry used to build duplicates. -/
def obDup : OutboxEntry := ⟨1, [1], 0⟩

/-- Session data whose outbox holds the same `(seq, payload_sha256)` twice. -/
def dataDup : SessionData := ⟨ctxNoU, "flow", "{}", [obDup, obDup]⟩

/-- A CAS-family session whose outbox holds the same entry twice. -/
def sessDup : Session := ⟨"id0", "key0", cur0, meta0, [obDup, obDup], 0, 0⟩

/-- A concrete reply scope. -/
def scopeA : ReplyScope := ⟨"sh"⟩

/-- The tenant context of `dataU1` as a caller context. -/
def ctxA : TenantCtx := ⟨"dev", "tenant", none, none, some "u1", none⟩

/-- An in-memory store with a live wait: session `k` for user `u1` under
`scopeA`, with both routing indices populated. -/
def stWait : InMemory.State :=
  ⟨fupdate (fun _ => none) "k"
      (some ⟨dataU1, none, some (InMemory.user_lookup_key ctxA "u1"),
        some (InMemory.scope_lookup_key ctxA "u1" scopeA)⟩),
   fupdate (fun _ => []) (InMemory.user_lookup_key ctxA "u1") ["k"],
   fupdate (fun _ => none) (InMemory.scope_lookup_key ctxA "u1" scopeA) (some ⟨"k", none⟩)⟩

/-- An in-memory store with two live waits for the same user bucket. -/
def stTwoWaits : InMemory.State :=
  ⟨fupdate
      (fupdate (fun _ => none) "k1"
        (some ⟨dataU1, none, some (InMemory.user_lookup_key ctxA "u1"), none⟩))
      "k2" (some ⟨dataU1, none, some (InMemory.user_lookup_key ctxA "u1"), none⟩),
   fupdate (fun _ => []) (InMemory.user_lookup_key ctxA "u1") ["k1", "k2"],
   fun _ => none⟩

/-- The sixteen lowercase hexadecimal digits. -/
def hexDigits : List Char := "0123456789abcdef".data

/-- A 257-bit vector rendered as a 257-character `a`/`b` string (used to
exhibit more than `2^256` distinct user-field values). -/
def bitString (v : Fin 257 → Bool) : String :=
  String.mk (List.ofFn (fun i => if v i then 'a' else 'b'))

/-- Reads bit `i` back out of a `bitString`. -/
def decodeBit (s : String) (i : Fin 257) : Bool := s.data.getD i.val 'b' == 'a'

/-! ## Helper lemmas -/

@[simp] theorem normalize_meta (s : Session) : (Session.normalize s).meta = s.meta := rfl

@[simp] theorem normalize_key (s : Session) : (Session.normalize s).key = s.key := rfl

theorem fupdate_same {α β : Type} [DecidableEq α] (f : α → β) (a : α) (b : β) :
    fupdate f a b a = b := by simp [fupdate]

theorem fupdate_other {α β : Type} [DecidableEq α] (f : α → β) (a x : α) (b : β)
    (h : x ≠ a) : fupdate f a b x = f x := by simp [fupdate, h]

/-! ## C1 / C2 — the CAS write protocol -/

/-- C1: `update_cas` returns `Ok(expected + 1)` exactly when the stored record
at the session's key has `cas = expected` (and then the stored payload becomes
the normalized new session under `cas = expected + 1`); it returns
`Err(current_cas)` when a record exists with a different CAS, leaving the
record unchanged; and it returns `Err(Cas::none())` and purges the lookup
side-index when no record exists, also leaving the data unchanged. -/
theorem update_cas_trichotomy (ns : String) (st : RedisStore.CasState) (s : Session)
    (expected : Cas) (now : Int) (rkey : String)
    (hrkey : rkey = RedisStore.data_key ns s.meta.tenant_id s.key)
    (hexp : expected + 1 < U64) :
    (∀ cur, st.data rkey = some cur → cur.cas = expected →
      RedisStore.update_cas ns st s expected now =
        (Except.ok (expected + 1),
          { st with data := fupdate st.data rkey (some (RedisStore.SessionEnvelope.new
              (Session.normalize { s with updated_at := now }) (expected + 1))) })) ∧
    (∀ cur, st.data rkey = some cur → cur.cas ≠ expected →
      RedisStore.update_cas ns st s expected now = (Except.error cur.cas, st)) ∧
    (st.data rkey = none →
      (RedisStore.update_cas ns st s expected now).1 = Except.error Cas.none ∧
      (RedisStore.update_cas ns st s expected now).2.data = st.data ∧
      (RedisStore.update_cas ns st s expected now).2.lookup (RedisStore.lookup_key ns s.key) =
        none) ∧
    (∀ c st2, RedisStore.update_cas ns st s expected now = (Except.ok c, st2) →
      ∃ cur, st.data rkey = some cur ∧ cur.cas = expected ∧ c = expected + 1) := by
  subst hrkey
  have hnext : Cas.next expected = expected + 1 := by
    simp [Cas.next, Nat.mod_eq_of_lt hexp]
  refine ⟨?_, ?_, ?_, ?_⟩
  · intro cur hsome hcas
    simp only [RedisStore.update_cas, normalize_meta, normalize_key]
    rw [hsome]
    simp [hcas, hnext]
  · intro cur hsome hcas
    simp only [RedisStore.update_cas, normalize_meta, normalize_key]
    rw [hsome]
    simp [hcas]
  · intro hnone
    simp only [RedisStore.update_cas, normalize_meta, normalize_key]
    rw [hnone]
    simp [fupdate_same]
  · intro c st2 heq
    simp only [RedisStore.update_cas, normalize_meta, normalize_key] at heq
    cases hsome : st.data (RedisStore.data_key ns s.meta.tenant_id s.key) with
    | none => rw [hsome] at heq; simp at heq
    | some cur =>
      rw [hsome] at heq
      by_cases hcas : cur.cas = (expected : Nat)
      · simp [hcas, hnext] at heq
        exact ⟨cur, rfl, hcas, heq.1.symm⟩
      · simp [hcas] at heq

/-- Witness for C1: on a store holding `cas = 1` at the session's key,
`update_cas` with `expected = 1` commits and returns `Ok 2`. -/
theorem update_cas_trichotomy_witness :
    (RedisStore.update_cas "ns" casSt1 sess0 1 7).1 = Except.ok 2 := by
  have h := update_cas_trichotomy "ns" casSt1 sess0 1 7
    (RedisStore.data_key "ns" "tenant" "key0") rfl (by norm_num [U64])
  have h2 := h.1 env1 (by rfl) rfl
  rw [h2]

/-- C2: successful writes bump the CAS — `put` returns `Cas::initial() = 1`
when the key was absent and `stored.cas + 1` (mod `2^64`) when a record
existed, storing the returned CAS; a successful `update_cas` returns
`expected + 1` (mod `2^64`) where `expected` equals the stored CAS; in the
non-wrapping case the returned CAS strictly exceeds the stored one, so any
sequence of successful writes to one key yields strictly increasing CAS
tokens modulo `u64` wrapping. -/
theorem cas_writes_monotonic (ns : String) (st : RedisStore.CasState) (s : Session)
    (expected : Cas) (now : Int) (rkey : String)
    (hrkey : rkey = RedisStore.data_key ns s.meta.tenant_id s.key) :
    (st.data rkey = none →
      (RedisStore.put ns st s now).1 = Cas.initial ∧ (RedisStore.put ns st s now).1 = 1) ∧
    (∀ cur, st.data rkey = some cur →
      (RedisStore.put ns st s now).1 = (cur.cas + 1) % U64 ∧
      (∃ env, (RedisStore.put ns st s now).2.data rkey = some env ∧
        env.cas = (RedisStore.put ns st s now).1) ∧
      (cur.cas + 1 < U64 → cur.cas < (RedisStore.put ns st s now).1)) ∧
    (∀ c st2, RedisStore.update_cas ns st s expected now = (Except.ok c, st2) →
      (∃ cur, st.data rkey = some cur ∧ cur.cas = expected) ∧
      c = (expected + 1) % U64 ∧
      (∃ env, st2.data rkey = some env ∧ env.cas = c) ∧
      (expected + 1 < U64 → expected < c)) := by
  subst hrkey
  refine ⟨?_, ?_, ?_⟩
  · intro hnone
    simp only [RedisStore.put, normalize_meta, normalize_key]
    rw [hnone]
    exact ⟨rfl, rfl⟩
  · intro cur hsome
    simp only [RedisStore.put, normalize_meta, normalize_key]
    rw [hsome]
    refine ⟨rfl, ⟨_, fupdate_same _ _ _, rfl⟩, ?_⟩
    intro hlt
    simp [Cas.next, Nat.mod_eq_of_lt hlt]
  · intro c st2 heq
    simp only [RedisStore.update_cas, normalize_meta, normalize_key] at heq
    cases hsome : st.data (RedisStore.data_key ns s.meta.tenant_id s.key) with
    | none => rw [hsome] at heq; simp at heq
    | some cur =>
      rw [hsome] at heq
      by_cases hcas : cur.cas = (expected : Nat)
      · simp [hcas] at heq
        obtain ⟨hc, hst⟩ := heq
        subst hst
        refine ⟨⟨cur, rfl, hcas⟩, by simp [← hc, Cas.next], ⟨_, fupdate_same _ _ _, by
          simp [← hc, RedisStore.SessionEnvelope.new]⟩, ?_⟩
        intro hlt
        simp [← hc, Cas.next, Nat.mod_eq_of_lt hlt]
      · simp [hcas] at heq

/-- Witness for C2: with a record at `cas = 1`, `put` returns CAS `2 > 1`. -/
theorem cas_writes_monotonic_witness :
    (RedisStore.put "ns" casSt1 sess0 7).1 = (1 + 1) % U64 ∧
    (1 : Nat) < (RedisStore.put "ns" casSt1 sess0 7).1 := by
  have h := cas_writes_monotonic "ns" casSt1 sess0 1 7
    (RedisStore.data_key "ns" "tenant" "key0") rfl
  have h2 := h.2.1 env1 (by rfl)
  exact ⟨h2.1, h2.2.2 (by norm_num [env1, U64])⟩

/-! ## C3 — tenant alignment on create -/

theorem ensure_alignment_ok_iff (ctx : TenantCtx) (data : SessionData) :
    InMemory.ensure_alignment ctx data = Except.ok () ↔ aligned ctx data.tenant_ctx := by
  unfold InMemory.ensure_alignment aligned
  by_cases h1 : ctx.env ≠ data.tenant_ctx.env ∨ ctx.tenant_id ≠ data.tenant_ctx.tenant_id
  · simp only [if_pos h1]
    simp
    tauto
  · simp only [if_neg h1]
    push_neg at h1
    by_cases h2 : InMemory.normalize_team ctx ≠ InMemory.normalize_team data.tenant_ctx
    · simp only [if_pos h2]
      simp
      tauto
    · simp only [if_neg h2]
      push_neg at h2
      rcases h3 : InMemory.normalize_user data.tenant_ctx with _ | su
      · simp [h1, h2]
      · rcases h4 : InMemory.normalize_user ctx with _ | pu
        · simp [h1, h2, h3, h4]
        · by_cases h5 : su ≠ pu
          · simp [h5, h1, h2, h3, h4]
            tauto
          · push_neg at h5
            subst h5
            simp [h1, h2, h3, h4]

theorem ensure_alignment_error_code (ctx : TenantCtx) (data : SessionData) (e : GreenticError)
    (h : InMemory.ensure_alignment ctx data = Except.error e) :
    e.code = ErrorCode.invalidInput := by
  unfold InMemory.ensure_alignment at h
  dsimp only at h
  split_ifs at h <;>
    first
      | (injection h with h; subst h; rfl)
      | (rcases h3 : InMemory.normalize_user data.tenant_ctx with _ | su <;>
          (rw [h3] at h; dsimp only at h)
         · simp at h
         · rcases h4 : InMemory.normalize_user ctx with _ | pu <;>
            (rw [h4] at h; dsimp only at h)
           · injection h with h; subst h; rfl
           · split_ifs at h
             injection h with h; subst h; rfl)

/-- Counterexample to C3: the caller context carries a user, the data carries
none — their normalized users differ, yet `create_session` succeeds and
stores the record, instead of returning `InvalidInput`. -/
theorem create_session_user_mismatch_accepted :
    InMemory.normalize_user ctxU ≠ InMemory.normalize_user dataNoU.tenant_ctx ∧
    (InMemory.create_session emptyState ctxU dataNoU "k").1 = Except.ok "k" ∧
    (InMemory.create_session emptyState ctxU dataNoU "k").2.sessions "k" =
      some ⟨dataNoU, none, none, none⟩ := by
  refine ⟨by decide, rfl, rfl⟩

/-- C3 amended: `create_session` succeeds, returning the fresh key and
storing the record, exactly when env, tenant and normalized team align and
any user carried by the data is also carried (equal) by the caller context
(a caller user with no data user is accepted); on any other combination it
returns `InvalidInput` and stores nothing. -/
theorem create_session_alignment (st : InMemory.State) (ctx : TenantCtx) (data : SessionData)
    (key : String) :
    (aligned ctx data.tenant_ctx →
      InMemory.create_session st ctx data key =
        (Except.ok key,
          { st with sessions := fupdate st.sessions key (some ⟨data, none, none, none⟩) })) ∧
    (¬ aligned ctx data.tenant_ctx →
      ∃ e, InMemory.create_session st ctx data key = (Except.error e, st) ∧
        e.code = ErrorCode.invalidInput) := by
  constructor
  · intro h
    rw [← ensure_alignment_ok_iff ctx data] at h
    unfold InMemory.create_session
    rw [h]
  · intro h
    rw [← ensure_alignment_ok_iff ctx data] at h
    cases he : InMemory.ensure_alignment ctx data with
    | ok v => exact absurd (by cases v; exact he) h
    | error e =>
      refine ⟨e, ?_, ensure_alignment_error_code ctx data e he⟩
      unfold InMemory.create_session
      rw [he]

/-- Witness for the amended C3: an aligned context and data create
successfully. -/
theorem create_session_alignment_witness :
    (InMemory.create_session emptyState ctxNoU dataNoU "k").1 = Except.ok "k" := by
  have h := (create_session_alignment emptyState ctxNoU dataNoU "k").1 (by decide)
  rw [h]

/-! ## C4 — context immutability on update -/

theorem ensure_ctx_preserved_ok_iff (existing candidate : TenantCtx) :
    InMemory.ensure_ctx_preserved existing candidate = Except.ok () ↔
      ¬ ctx_changed existing candidate := by
  unfold InMemory.ensure_ctx_preserved ctx_changed
  by_cases h1 : existing.env ≠ candidate.env ∨ existing.tenant_id ≠ candidate.tenant_id
  · simp only [if_pos h1]
    simp
    tauto
  · simp only [if_neg h1]
    push_neg at h1
    by_cases h2 : InMemory.normalize_team existing ≠ InMemory.normalize_team candidate
    · simp only [if_pos h2]
      simp
      tauto
    · simp only [if_neg h2]
      push_neg at h2
      rcases h3 : InMemory.normalize_user existing with _ | a <;>
        rcases h4 : InMemory.normalize_user candidate with _ | b
      · simp [h1, h2, h3, h4]
      · simp [h1, h2, h3, h4]
      · simp [h1, h2, h3, h4]
      · by_cases h5 : a = b
        · subst h5
          simp [h1, h2, h3, h4]
        · simp [h5, h1, h2, h3, h4]

theorem ensure_ctx_preserved_error_code (existing candidate : TenantCtx) (e : GreenticError)
    (h : InMemory.ensure_ctx_preserved existing candidate = Except.error e) :
    e.code = ErrorCode.invalidInput := by
  unfold InMemory.ensure_ctx_preserved at h
  split_ifs at h
  · injection h with h; subst h; rfl
  · injection h with h; subst h; rfl
  · rcases h3 : InMemory.normalize_user existing with _ | a <;>
      rcases h4 : InMemory.normalize_user candidate with _ | b <;>
      (rw [h3, h4] at h; dsimp only at h)
    · exact absurd h (by simp)
    · injection h with h; subst h; rfl
    · injection h with h; subst h; rfl
    · by_cases h5 : a = b
      · rw [if_pos h5] at h
        exact absurd h (by simp)
      · rw [if_neg h5] at h
        injection h with h; subst h; rfl

/-- Counterexample to C4: the CAS-family `update_cas` performs no tenant
context check — changing the stored user in the session's meta commits
successfully (returning `Ok 2`) instead of failing with `InvalidInput`. -/
theorem update_cas_ctx_change_accepted :
    sessU1.meta.user_id ≠ sessU2.meta.user_id ∧
    (RedisStore.update_cas "ns" casStU1 sessU2 1 0).1 = Except.ok 2 ∧
    (∃ env, (RedisStore.update_cas "ns" casStU1 sessU2 1 0).2.data
        (RedisStore.data_key "ns" "tenant" "key0") = some env ∧
      env.session.meta.user_id = some "u2") := by
  exact ⟨by decide, rfl, ⟨_, rfl, rfl⟩⟩

/-- C4 amended: after a session is stored, a routing-family `update_session`
whose tenant context changes env, tenant, the normalized team, or the
normalized user (introducing, changing, or removing it) fails with
`InvalidInput` and leaves the store unchanged; the CAS-family `update_cas`
performs no such check. -/
theorem update_session_ctx_immutable (st : InMemory.State) (key : String) (data : SessionData)
    (prev : InMemory.SessionEntry) (h1 : st.sessions key = some prev)
    (h2 : ctx_changed prev.data.tenant_ctx data.tenant_ctx) :
    ∃ e, InMemory.update_session st key data = (Except.error e, st) ∧
      e.code = ErrorCode.invalidInput := by
  unfold InMemory.update_session
  rw [h1]
  dsimp only
  cases he : InMemory.ensure_ctx_preserved prev.data.tenant_ctx data.tenant_ctx with
  | ok v =>
    exact absurd ((ensure_ctx_preserved_ok_iff _ _).1 (by cases v; exact he)) (not_not_intro h2)
  | error e =>
    exact ⟨e, rfl, ensure_ctx_preserved_error_code _ _ e he⟩

/-- Witness for the amended C4: updating the stored session with a changed
user is rejected with `InvalidInput` and the store is unchanged. -/
theorem update_session_ctx_immutable_witness :
    ∃ e, InMemory.update_session stWithK "k" dataU2 = (Except.error e, stWithK) ∧
      e.code = ErrorCode.invalidInput :=
  update_session_ctx_immutable stWithK "k" dataU2 ⟨dataU1, none, none, none⟩ rfl (by decide)

/-! ## C10 — update_session replaces only the data field -/

/-- C10: a successful `update_session` replaces only the `data` field of the
stored entry — the new entry keeps the previous entry's `expires_at`,
`wait_user` and `scope_key`, no other session is touched, and the
`user_waits` and `scope_index` maps are untouched, so updating a session
neither extends nor resets its TTL and leaves its routing indices alone. -/
theorem update_session_frame (st : InMemory.State) (key : String) (data : SessionData)
    (prev : InMemory.SessionEntry) (h1 : st.sessions key = some prev)
    (h2 : InMemory.ensure_ctx_preserved prev.data.tenant_ctx data.tenant_ctx = Except.ok ()) :
    InMemory.update_session st key data =
      (Except.ok (),
        { st with sessions :=
            (fupdate st.sessions key
              (some ⟨data, prev.expires_at, prev.wait_user, prev.scope_key⟩)) }) ∧
    (InMemory.update_session st key data).2.sessions key =
      some ⟨data, prev.expires_at, prev.wait_user, prev.scope_key⟩ ∧
    (∀ k, k ≠ key → (InMemory.update_session st key data).2.sessions k = st.sessions k) ∧
    (InMemory.update_session st key data).2.user_waits = st.user_waits ∧
    (InMemory.update_session st key data).2.scope_index = st.scope_index := by
  have hmain : InMemory.update_session st key data =
      (Except.ok (),
        { st with sessions :=
            (fupdate st.sessions key
              (some ⟨data, prev.expires_at, prev.wait_user, prev.scope_key⟩)) }) := by
    unfold InMemory.update_session
    rw [h1]
    dsimp only
    rw [h2]
  refine ⟨hmain, ?_, ?_, ?_, ?_⟩ <;> rw [hmain]
  · exact fupdate_same _ _ _
  · intro k hk
    exact fupdate_other _ _ _ _ hk

/-- Witness for C10: updating the stored session keeps the previous entry's
TTL deadline and index back-references (all `none` here). -/
theorem update_session_frame_witness :
    (InMemory.update_session stWithK "k" dataU1).2.sessions "k" =
      some ⟨dataU1, none, none, none⟩ :=
  (update_session_frame stWithK "k" dataU1 ⟨dataU1, none, none, none⟩ rfl (by rfl)).2.1

/-! ## C6 — TTL semantics -/

theorem purge_sessions_eq (st : InMemory.State) (k : String) (e : InMemory.SessionEntry) :
    (InMemory.purge_expired_session st k e).sessions = st.sessions := by
  unfold InMemory.purge_expired_session InMemory.remove_from_user_waits
    InMemory.remove_scope_entry
  cases e.wait_user <;> cases e.scope_key <;> rfl

/-- C6: `ttl_secs = 0` means the record never expires — `expires_at()` is
`None` exactly then, and `Some(updated_at + ttl_secs)` otherwise; and an
in-memory read at or after an entry's deadline observes the record as absent
and purges it from the sessions map. -/
theorem ttl_semantics (s : Session) (st : InMemory.State) (key : String)
    (entry : InMemory.SessionEntry) (d now : Nat) :
    (s.expires_at = none ↔ s.ttl_secs = 0) ∧
    (s.ttl_secs ≠ 0 → s.expires_at = some (s.updated_at + (s.ttl_secs : Int))) ∧
    (st.sessions key = some entry → entry.expires_at = some d → d ≤ now →
      (InMemory.get_session st now key).1 = none ∧
      (InMemory.get_session st now key).2.sessions key = none) := by
  refine ⟨?_, ?_, ?_⟩
  · unfold Session.expires_at
    split_ifs with h <;> simp [h]
  · intro h
    simp [Session.expires_at, h]
  · intro h1 h2 h3
    have hexp : InMemory.is_expired now entry.expires_at = true := by
      rw [h2]
      simp [InMemory.is_expired, h3]
    unfold InMemory.get_session
    rw [h1]
    dsimp only
    rw [hexp]
    simp only [if_true]
    refine ⟨trivial, ?_⟩
    rw [purge_sessions_eq]
    exact fupdate_same _ _ _

/-- Witness for C6: `sess0` (ttl 0) never expires, and reading the entry that
expires at instant 10 at `now = 10` observes it absent and purged. -/
theorem ttl_semantics_witness :
    (sess0.expires_at = none ↔ sess0.ttl_secs = 0) ∧
    (InMemory.get_session stWithExp 10 "k").1 = none ∧
    (InMemory.get_session stWithExp 10 "k").2.sessions "k" = none := by
  have h := ttl_semantics sess0 stWithExp "k" ⟨dataU1, some 10, none, none⟩ 10 10
  exact ⟨h.1, h.2.2 rfl rfl (by decide)⟩

/-! ## C7 — normalization on write -/

theorem dedupeGo_sublist (seen : List (Nat × List Nat)) (l : List OutboxEntry) :
    List.Sublist (dedupeGo seen l) l := by
  induction l generalizing seen with
  | nil => simp [dedupeGo]
  | cons e rest ih =>
    unfold dedupeGo
    split_ifs with h
    · exact List.Sublist.cons e (ih seen)
    · exact List.Sublist.cons₂ e (ih _)

theorem dedupeGo_not_seen (seen : List (Nat × List Nat)) (l : List OutboxEntry) :
    ∀ x ∈ dedupeGo seen l, x.dkey ∉ seen := by
  induction l generalizing seen with
  | nil => simp [dedupeGo]
  | cons e rest ih =>
    unfold dedupeGo
    split_ifs with h
    · exact ih seen
    · intro x hx
      rcases List.mem_cons.1 hx with rfl | hx
      · exact h
      · have := ih (e.dkey :: seen) x hx
        intro hs
        exact this (List.mem_cons_of_mem _ hs)

theorem dedupeGo_nodup (seen : List (Nat × List Nat)) (l : List OutboxEntry) :
    ((dedupeGo seen l).map OutboxEntry.dkey).Nodup := by
  induction l generalizing seen with
  | nil => simp [dedupeGo]
  | cons e rest ih =>
    unfold dedupeGo
    split_ifs with h
    · exact ih seen
    · rw [List.map_cons, List.nodup_cons]
      refine ⟨?_, ih _⟩
      intro hmem
      rcases List.mem_map.1 hmem with ⟨x, hx, hxe⟩
      have := dedupeGo_not_seen (e.dkey :: seen) rest x hx
      exact this (hxe ▸ List.mem_cons_self _ _)

theorem dedupeGo_id (seen : List (Nat × List Nat)) (l : List OutboxEntry)
    (h1 : (l.map OutboxEntry.dkey).Nodup) (h2 : ∀ e ∈ l, e.dkey ∉ seen) :
    dedupeGo seen l = l := by
  induction l generalizing seen with
  | nil => rfl
  | cons e rest ih =>
    unfold dedupeGo
    rw [List.map_cons, List.nodup_cons] at h1
    rw [if_neg (h2 e (List.mem_cons_self _ _))]
    congr 1
    refine ih _ h1.2 ?_
    intro x hx hmem
    rcases List.mem_cons.1 hmem with hxe | hs
    · exact h1.1 (List.mem_map.2 ⟨x, hx, hxe⟩)
    · exact h2 x (List.mem_cons_of_mem _ hx) hs

theorem dedupe_idem (l : List OutboxEntry) : dedupeOutbox (dedupeOutbox l) = dedupeOutbox l :=
  dedupeGo_id [] (dedupeGo [] l) (dedupeGo_nodup [] l) (fun _ _ => List.not_mem_nil _)

theorem register_wait_commit_sessions (st : InMemory.State) (ul : InMemory.UserLookupKey)
    (sk : InMemory.ScopeLookupKey) (skey : String) (data : SessionData) (exp : Option Nat) :
    (InMemory.register_wait_commit st ul sk skey data exp).sessions skey =
      some ⟨data, exp, some ul, some sk⟩ := by
  unfold InMemory.register_wait_commit
  dsimp only
  split
  · split_ifs <;> simp [InMemory.remove_from_user_waits, fupdate_same]
  · simp [fupdate_same]

/-- Counterexample to C7: the routing-family `create_session` stores the
payload exactly as provided — an outbox holding the same
`(seq, payload_sha256)` twice is stored with the duplicate intact, so
routing-family storage is not the normalized canonical form. -/
theorem routing_write_not_normalized :
    (InMemory.create_session emptyState ctxNoU dataDup "k").1 = Except.ok "k" ∧
    (InMemory.create_session emptyState ctxNoU dataDup "k").2.sessions "k" =
      some ⟨dataDup, none, none, none⟩ ∧
    ¬ ((dataDup.outbox.map OutboxEntry.dkey).Nodup) ∧
    dedupeOutbox dataDup.outbox ≠ dataDup.outbox := by
  exact ⟨rfl, rfl, by decide, by decide⟩

/-- C7 amended: the CAS-family writes (`put`, `update_cas`) store a
normalized payload — the stored outbox is `dedupe_outbox` of the input,
which retains the first occurrence of each `(seq, payload_sha256)` pair in
order (it is a duplicate-free-by-key sublist of the input and idempotent);
the routing-family writes (`create_session`, `update_session`,
`register_wait`) store the session data exactly as provided. -/
theorem outbox_normalization :
    (∀ l, List.Sublist (dedupeOutbox l) l ∧ ((dedupeOutbox l).map OutboxEntry.dkey).Nodup ∧
      dedupeOutbox (dedupeOutbox l) = dedupeOutbox l) ∧
    (∀ ns st s now rkey, rkey = RedisStore.data_key ns s.meta.tenant_id s.key →
      ∃ env, (RedisStore.put ns st s now).2.data rkey = some env ∧
        env.session.outbox = dedupeOutbox s.outbox) ∧
    (∀ ns st s expected now c st2,
      RedisStore.update_cas ns st s expected now = (Except.ok c, st2) →
      ∃ env, st2.data (RedisStore.data_key ns s.meta.tenant_id s.key) = some env ∧
        env.session.outbox = dedupeOutbox s.outbox) ∧
    (∀ st ctx data key k st2, InMemory.create_session st ctx data key = (Except.ok k, st2) →
      st2.sessions k = some ⟨data, none, none, none⟩) ∧
    (∀ st key data prev, st.sessions key = some prev →
      InMemory.ensure_ctx_preserved prev.data.tenant_ctx data.tenant_ctx = Except.ok () →
      (InMemory.update_session st key data).2.sessions key =
        some ⟨data, prev.expires_at, prev.wait_user, prev.scope_key⟩) ∧
    (∀ st now ctx user scope skey data ttl st2,
      InMemory.register_wait st now ctx user scope skey data ttl = (Except.ok (), st2) →
      ∃ ent, st2.sessions skey = some ent ∧ ent.data = data) := by
  refine ⟨?_, ?_, ?_, ?_, ?_, ?_⟩
  · intro l
    exact ⟨dedupeGo_sublist [] l, dedupeGo_nodup [] l, dedupe_idem l⟩
  · intro ns st s now rkey hr
    subst hr
    simp only [RedisStore.put]
    refine ⟨_, fupdate_same _ _ _, ?_⟩
    simp [RedisStore.SessionEnvelope.new, Session.normalize, dedupe_idem]
  · intro ns st s expected now c st2 heq
    simp only [RedisStore.update_cas, normalize_meta, normalize_key] at heq
    cases hsome : st.data (RedisStore.data_key ns s.meta.tenant_id s.key) with
    | none => rw [hsome] at heq; simp at heq
    | some current =>
      rw [hsome] at heq
      by_cases hcas : current.cas = (expected : Nat)
      · simp [hcas] at heq
        obtain ⟨-, hst⟩ := heq
        subst hst
        refine ⟨_, fupdate_same _ _ _, ?_⟩
        simp [RedisStore.SessionEnvelope.new, Session.normalize, dedupe_idem]
      · simp [hcas] at heq
  · intro st ctx data key k st2 heq
    unfold InMemory.create_session at heq
    cases ha : InMemory.ensure_alignment ctx data with
    | error e => rw [ha] at heq; simp at heq
    | ok v =>
      rw [ha] at heq
      dsimp only at heq
      injection heq with hk hst
      injection hk with hk
      subst hk
      subst hst
      exact fupdate_same _ _ _
  · intro st key data prev h1 h2
    unfold InMemory.update_session
    rw [h1]
    dsimp only
    rw [h2]
    exact fupdate_same _ _ _
  · intro st now ctx user scope skey data ttl st2 heq
    unfold InMemory.register_wait at heq
    cases ha : InMemory.ensure_alignment ctx data with
    | error e => rw [ha] at heq; simp at heq
    | ok va =>
      rw [ha] at heq
      dsimp only at heq
      cases hu : InMemory.ensure_user_matches ctx user data with
      | error e => rw [hu] at heq; simp at heq
      | ok vu =>
        rw [hu] at heq
        dsimp only at heq
        cases hs : st.sessions skey with
        | none =>
          rw [hs] at heq
          dsimp only at heq
          injection heq with h1 hst
          subst hst
          exact ⟨_, register_wait_commit_sessions _ _ _ _ _ _, rfl⟩
        | some existing =>
          rw [hs] at heq
          dsimp only at heq
          cases hp : InMemory.ensure_ctx_preserved existing.data.tenant_ctx data.tenant_ctx with
          | error e => rw [hp] at heq; simp at heq
          | ok vp =>
            rw [hp] at heq
            dsimp only at heq
            injection heq with h1 hst
            subst hst
            exact ⟨_, register_wait_commit_sessions _ _ _ _ _ _, rfl⟩

/-- Witness for the amended C7: `put` stores `sessDup` with its duplicate
outbox entry removed, while `create_session` stores `dataDup` verbatim. -/
theorem outbox_normalization_witness :
    (∃ env, (RedisStore.put "ns" casSt1 sessDup 7).2.data
        (RedisStore.data_key "ns" "tenant" "key0") = some env ∧
      env.session.outbox = dedupeOutbox sessDup.outbox) ∧
    ((InMemory.create_session emptyState ctxNoU dataDup "k").2.sessions "k" =
      some ⟨dataDup, none, none, none⟩) := by
  refine ⟨outbox_normalization.2.1 "ns" casSt1 sessDup 7 _ rfl, ?_⟩
  exact outbox_normalization.2.2.2.1 emptyState ctxNoU dataDup "k" "k"
    (InMemory.create_session emptyState ctxNoU dataDup "k").2 (by rfl)

/-! ## C5 — find_wait_by_scope prunes and never errors -/

/-- C5: `find_wait_by_scope` never surfaces a stale index entry as an error
(its result is a plain `Option`): an absent scope entry returns `None` with
the state untouched; an expired entry returns `None`; a dangling entry (the
referenced session gone or lazily expired) or a session whose stored context
mismatches the caller's env/tenant/normalized team or whose stored user
differs from the given user returns `None` and prunes both the scope entry
and the wait-set member; and `Some(session_key)` is returned exactly for a
live, fully matching entry. -/
theorem find_wait_by_scope_spec (st : InMemory.State) (now : Nat) (ctx : TenantCtx)
    (user : String) (scope : ReplyScope) (skey : InMemory.ScopeLookupKey)
    (hskey : skey = InMemory.scope_lookup_key ctx user scope) :
    (st.scope_index skey = none →
      InMemory.find_wait_by_scope st now ctx user scope = (none, st)) ∧
    (∀ entry, st.scope_index skey = some entry →
      InMemory.is_expired now entry.expires_at = true →
      (InMemory.find_wait_by_scope st now ctx user scope).1 = none) ∧
    (∀ entry, st.scope_index skey = some entry →
      InMemory.is_expired now entry.expires_at = false →
      (InMemory.get_session st now entry.session_key).1 = none →
      (InMemory.find_wait_by_scope st now ctx user scope).1 = none ∧
      (InMemory.find_wait_by_scope st now ctx user scope).2.scope_index skey = none ∧
      entry.session_key ∉
        (InMemory.find_wait_by_scope st now ctx user scope).2.user_waits
          (InMemory.user_lookup_key ctx user)) ∧
    (∀ entry data, st.scope_index skey = some entry →
      InMemory.is_expired now entry.expires_at = false →
      (InMemory.get_session st now entry.session_key).1 = some data →
      wait_mismatch ctx user data.tenant_ctx →
      (InMemory.find_wait_by_scope st now ctx user scope).1 = none ∧
      (InMemory.find_wait_by_scope st now ctx user scope).2.scope_index skey = none ∧
      entry.session_key ∉
        (InMemory.find_wait_by_scope st now ctx user scope).2.user_waits
          (InMemory.user_lookup_key ctx user)) ∧
    (∀ entry data, st.scope_index skey = some entry →
      InMemory.is_expired now entry.expires_at = false →
      (InMemory.get_session st now entry.session_key).1 = some data →
      ¬ wait_mismatch ctx user data.tenant_ctx →
      InMemory.find_wait_by_scope st now ctx user scope =
        (some entry.session_key, (InMemory.get_session st now entry.session_key).2)) ∧
    (∀ k, (InMemory.find_wait_by_scope st now ctx user scope).1 = some k →
      ∃ entry data, st.scope_index skey = some entry ∧ k = entry.session_key ∧
        InMemory.is_expired now entry.expires_at = false ∧
        (InMemory.get_session st now entry.session_key).1 = some data ∧
        ¬ wait_mismatch ctx user data.tenant_ctx) := by
  subst hskey
  refine ⟨?_, ?_, ?_, ?_, ?_, ?_⟩
  · intro h
    unfold InMemory.find_wait_by_scope
    dsimp only
    rw [h]
  · intro entry hsc hexp
    unfold InMemory.find_wait_by_scope
    dsimp only
    rw [hsc]
    dsimp only
    rw [hexp]
    cases (InMemory.remove_from_user_waits
        (InMemory.remove_scope_entry st (InMemory.scope_lookup_key ctx user scope))
        (InMemory.user_lookup_key ctx user) entry.session_key).sessions entry.session_key <;>
      rfl
  · intro entry hsc hexp hget
    unfold InMemory.find_wait_by_scope
    dsimp only
    rw [hsc]
    dsimp only
    rw [if_neg (by simp [hexp])]
    cases hg : InMemory.get_session st now entry.session_key with
    | mk r st1 =>
      rw [hg] at hget
      dsimp only at hget
      subst hget
      dsimp only
      refine ⟨rfl, ?_, ?_⟩
      · exact fupdate_same _ _ _
      · dsimp only [InMemory.remove_from_user_waits]
        rw [fupdate_same]
        intro hmem
        rcases List.mem_filter.1 hmem with ⟨-, hne⟩
        simp at hne
  · intro entry data hsc hexp hget hmm
    unfold InMemory.find_wait_by_scope
    dsimp only
    rw [hsc]
    dsimp only
    rw [if_neg (by simp [hexp])]
    cases hg : InMemory.get_session st now entry.session_key with
    | mk r st1 =>
      rw [hg] at hget
      dsimp only at hget
      subst hget
      dsimp only
      by_cases hc1 : data.tenant_ctx.env ≠ ctx.env ∨ data.tenant_ctx.tenant_id ≠ ctx.tenant_id ∨
          InMemory.normalize_team data.tenant_ctx ≠ InMemory.normalize_team ctx
      · rw [if_pos hc1]
        refine ⟨rfl, fupdate_same _ _ _, ?_⟩
        dsimp only [InMemory.remove_from_user_waits]
        rw [fupdate_same]
        intro hmem
        rcases List.mem_filter.1 hmem with ⟨-, hne⟩
        simp at hne
      · rw [if_neg hc1]
        have hc2 : (match InMemory.normalize_user data.tenant_ctx with
            | some stored_user => stored_user != user
            | none => false) = true := by
          push_neg at hc1
          rcases hmm with h | h | h | ⟨su, hsu, hne⟩
          · exact absurd h (not_not_intro hc1.1)
          · exact absurd h (not_not_intro hc1.2.1)
          · exact absurd h (not_not_intro hc1.2.2)
          · rw [hsu]
            simpa using hne
        rw [hc2]
        rw [if_pos rfl]
        refine ⟨rfl, fupdate_same _ _ _, ?_⟩
        dsimp only [InMemory.remove_from_user_waits]
        rw [fupdate_same]
        intro hmem
        rcases List.mem_filter.1 hmem with ⟨-, hne⟩
        simp at hne
  · intro entry data hsc hexp hget hok
    unfold InMemory.find_wait_by_scope
    dsimp only
    rw [hsc]
    dsimp only
    rw [if_neg (by simp [hexp])]
    cases hg : InMemory.get_session st now entry.session_key with
    | mk r st1 =>
      rw [hg] at hget
      dsimp only at hget
      subst hget
      dsimp only
      unfold wait_mismatch at hok
      push_neg at hok
      rw [if_neg (by push_neg; exact ⟨hok.1, hok.2.1, hok.2.2.1⟩)]
      have hc2 : (match InMemory.normalize_user data.tenant_ctx with
          | some stored_user => stored_user != user
          | none => false) = false := by
        rcases hnu : InMemory.normalize_user data.tenant_ctx with _ | su
        · rfl
        · have := hok.2.2.2 su hnu
          simpa using this
      rw [hc2]
      rfl
  · intro k hk
    unfold InMemory.find_wait_by_scope at hk
    dsimp only at hk
    cases hsc : st.scope_index (InMemory.scope_lookup_key ctx user scope) with
    | none => rw [hsc] at hk; simp at hk
    | some entry =>
      rw [hsc] at hk
      dsimp only at hk
      cases hexp : InMemory.is_expired now entry.expires_at with
      | true =>
        rw [hexp] at hk
        rcases hss : (InMemory.remove_from_user_waits
            (InMemory.remove_scope_entry st (InMemory.scope_lookup_key ctx user scope))
            (InMemory.user_lookup_key ctx user) entry.session_key).sessions entry.session_key with
          _ | se <;> rw [hss] at hk <;> simp at hk
      | false =>
        rw [if_neg (by simp [hexp])] at hk
        cases hg : InMemory.get_session st now entry.session_key with
        | mk r st1 =>
          rw [hg] at hk
          cases r with
          | none => dsimp only at hk; simp at hk
          | some data =>
            dsimp only at hk
            by_cases hc1 : data.tenant_ctx.env ≠ ctx.env ∨
                data.tenant_ctx.tenant_id ≠ ctx.tenant_id ∨
                InMemory.normalize_team data.tenant_ctx ≠ InMemory.normalize_team ctx
            · rw [if_pos hc1] at hk
              simp at hk
            · rw [if_neg hc1] at hk
              cases hc2 : (match InMemory.normalize_user data.tenant_ctx with
                  | some stored_user => stored_user != user
                  | none => false) with
              | true =>
                rw [hc2] at hk
                rw [if_pos rfl] at hk
                simp at hk
              | false =>
                rw [hc2] at hk
                rw [if_neg (by simp)] at hk
                injection hk with hk
                refine ⟨entry, data, rfl, hk.symm, hexp, by rw [hg], ?_⟩
                push_neg at hc1
                unfold wait_mismatch
                push_neg
                refine ⟨hc1.1, hc1.2.1, hc1.2.2, ?_⟩
                intro su hsu
                rw [hsu] at hc2
                simpa using hc2

/-- Witness for C5: on a live, fully matching wait the lookup returns the
session key. -/
theorem find_wait_by_scope_spec_witness :
    InMemory.find_wait_by_scope stWait 0 ctxA "u1" scopeA =
      (some "k", (InMemory.get_session stWait 0 "k").2) := by
  have h := (find_wait_by_scope_spec stWait 0 ctxA "u1" scopeA
    (InMemory.scope_lookup_key ctxA "u1" scopeA) rfl).2.2.2.2.1
  exact h ⟨"k", none⟩ dataU1 rfl rfl rfl
    (by
      intro hmm
      rcases hmm with h1 | h1 | h1 | ⟨su, hsu, hne⟩
      · exact h1 rfl
      · exact h1 rfl
      · exact h1 rfl
      · rw [show InMemory.normalize_user dataU1.tenant_ctx = some "u1" from rfl] at hsu
        injection hsu with hsu
        exact hne hsu.symm)

/-! ## C8 — find_by_user and the "multiple waits" error -/

theorem remove_waits_sessions (st : InMemory.State) (l : InMemory.UserLookupKey) (key : String) :
    (InMemory.remove_from_user_waits st l key).sessions = st.sessions := rfl

theorem live_match_expired_purge (st : InMemory.State) (now : Nat) (ctx : TenantCtx)
    (user : String) (key : String) (entry : InMemory.SessionEntry)
    (hsk : st.sessions key = some entry)
    (hexp : InMemory.is_expired now entry.expires_at = true) :
    ∀ k, live_match (fupdate st.sessions key none) now ctx user k =
      live_match st.sessions now ctx user k := by
  intro k
  by_cases hk : k = key
  · subst hk
    unfold live_match
    rw [fupdate_same, hsk]
    simp [hexp]
  · unfold live_match
    rw [fupdate_other _ _ _ _ hk]

/-- The loop of `list_waits_for_user` returns exactly the live matching
members of the snapshot (in order), leaves the sessions of live matching
keys untouched, and preserves liveness/matching of every key. -/
theorem list_waits_go_spec (now : Nat) (ctx : TenantCtx) (user : String)
    (lookup : InMemory.UserLookupKey) (ks : List String) (st : InMemory.State) :
    (InMemory.list_waits_go now ctx user lookup ks st).1 =
      ks.filter (live_match st.sessions now ctx user) ∧
    (∀ k, live_match st.sessions now ctx user k = true →
      (InMemory.list_waits_go now ctx user lookup ks st).2.sessions k = st.sessions k) ∧
    (∀ k, live_match (InMemory.list_waits_go now ctx user lookup ks st).2.sessions now ctx user k =
      live_match st.sessions now ctx user k) := by
  induction ks generalizing st with
  | nil => exact ⟨rfl, fun _ _ => rfl, fun _ => rfl⟩
  | cons key rest ih =>
    unfold InMemory.list_waits_go
    cases hsk : st.sessions key with
    | none =>
      have hgs : InMemory.get_session st now key = (none, st) := by
        unfold InMemory.get_session
        rw [hsk]
      rw [hgs]
      dsimp only
      have hlm : live_match st.sessions now ctx user key = false := by
        unfold live_match
        rw [hsk]
      obtain ⟨ih1, ih2, ih3⟩ := ih (InMemory.remove_from_user_waits st lookup key)
      refine ⟨?_, ?_, ?_⟩
      · rw [ih1, List.filter_cons, hlm]
        simp only [Bool.false_eq_true, if_false]
        exact List.filter_congr fun x _ => rfl
      · intro k hk
        exact ih2 k hk
      · intro k
        exact ih3 k
    | some entry =>
      cases hexp : InMemory.is_expired now entry.expires_at with
      | true =>
        have hgs : InMemory.get_session st now key =
            (none, InMemory.purge_expired_session
              { st with sessions := fupdate st.sessions key none } key entry) := by
          unfold InMemory.get_session
          rw [hsk]
          dsimp only
          rw [if_pos hexp]
        rw [hgs]
        dsimp only
        have hlm : live_match st.sessions now ctx user key = false := by
          unfold live_match
          rw [hsk]
          simp [hexp]
        set stp := InMemory.remove_from_user_waits
          (InMemory.purge_expired_session
            { st with sessions := fupdate st.sessions key none } key entry) lookup key with hstp
        have hsess : stp.sessions = fupdate st.sessions key none := by
          rw [hstp, remove_waits_sessions, purge_sessions_eq]
        have hfix : ∀ k, live_match stp.sessions now ctx user k =
            live_match st.sessions now ctx user k := by
          rw [hsess]
          exact live_match_expired_purge st now ctx user key entry hsk hexp
        obtain ⟨ih1, ih2, ih3⟩ := ih stp
        refine ⟨?_, ?_, ?_⟩
        · rw [ih1, List.filter_cons, hlm]
          simp only [Bool.false_eq_true, if_false]
          exact List.filter_congr fun x _ => hfix x
        · intro k hk
          have hk2 : live_match stp.sessions now ctx user k = true := (hfix k).trans hk
          rw [ih2 k hk2, hsess]
          have hkne : k ≠ key := by
            intro hkk
            subst hkk
            rw [hk] at hlm
            simp at hlm
          exact fupdate_other _ _ _ _ hkne
        · intro k
          exact (ih3 k).trans (hfix k)
      | false =>
        have hgs : InMemory.get_session st now key = (some entry.data, st) := by
          unfold InMemory.get_session
          rw [hsk]
          dsimp only
          rw [if_neg (by simp [hexp])]
        rw [hgs]
        dsimp only
        by_cases hc1 : entry.data.tenant_ctx.env ≠ ctx.env ∨
            entry.data.tenant_ctx.tenant_id ≠ ctx.tenant_id ∨
            InMemory.normalize_team entry.data.tenant_ctx ≠ InMemory.normalize_team ctx
        · rw [if_pos hc1]
          have hlm : live_match st.sessions now ctx user key = false := by
            unfold live_match
            rw [hsk]
            simp only [hexp, Bool.not_false, Bool.true_and]
            rcases hc1 with h | h | h
            · simp [h]
            · simp [h]
            · simp [h]
          obtain ⟨ih1, ih2, ih3⟩ := ih (InMemory.remove_from_user_waits st lookup key)
          refine ⟨?_, ?_, ?_⟩
          · rw [ih1, List.filter_cons, hlm]
            simp only [Bool.false_eq_true, if_false]
            exact List.filter_congr fun x _ => rfl
          · intro k hk
            exact ih2 k hk
          · intro k
            exact ih3 k
        · rw [if_neg hc1]
          cases hc2 : (match InMemory.normalize_user entry.data.tenant_ctx with
              | some stored_user => stored_user != user
              | none => false) with
          | true =>
            rw [if_pos rfl]
            have hlm : live_match st.sessions now ctx user key = false := by
              unfold live_match
              rw [hsk]
              dsimp only
              rcases hnu : InMemory.normalize_user entry.data.tenant_ctx with _ | su <;>
                rw [hnu] at hc2
              · simp at hc2
              · have hne : su ≠ user := by simpa using hc2
                simp [hne]
            obtain ⟨ih1, ih2, ih3⟩ := ih (InMemory.remove_from_user_waits st lookup key)
            refine ⟨?_, ?_, ?_⟩
            · rw [ih1, List.filter_cons, hlm]
              simp only [Bool.false_eq_true, if_false]
              exact List.filter_congr fun x _ => rfl
            · intro k hk
              exact ih2 k hk
            · intro k
              exact ih3 k
          | false =>
            rw [if_neg (by simp)]
            have hlm : live_match st.sessions now ctx user key = true := by
              unfold live_match
              rw [hsk]
              dsimp only
              push_neg at hc1
              rcases hnu : InMemory.normalize_user entry.data.tenant_ctx with _ | su <;>
                rw [hnu] at hc2
              · simp [hexp, hc1.1, hc1.2.1, hc1.2.2]
              · have heq : su = user := by simpa using hc2
                simp [hexp, hc1.1, hc1.2.1, hc1.2.2, heq]
            obtain ⟨ih1, ih2, ih3⟩ := ih st
            refine ⟨?_, ?_, ?_⟩
            · rw [List.filter_cons, hlm]
              simp only [if_true]
              rw [ih1]
            · intro k hk
              exact ih2 k hk
            · intro k
              exact ih3 k

theorem live_match_true_elim (sessions : String → Option InMemory.SessionEntry) (now : Nat)
    (ctx : TenantCtx) (user : String) (k : String)
    (h : live_match sessions now ctx user k = true) :
    ∃ entry, sessions k = some entry ∧
      InMemory.is_expired now entry.expires_at = false := by
  unfold live_match at h
  cases hsk : sessions k with
  | none => rw [hsk] at h; simp at h
  | some entry =>
    rw [hsk] at h
    dsimp only at h
    refine ⟨entry, rfl, ?_⟩
    cases hexp : InMemory.is_expired now entry.expires_at with
    | true => rw [hexp] at h; simp at h
    | false => rfl

/-- C8: `find_by_user` returns `Ok(None)` when no live matching wait exists
for the caller's `(env, tenant, normalized team, user)` bucket,
`Ok(Some((key, data)))` when exactly one exists, and an `InvalidInput` error
whose message starts with (hence contains) the substring `"multiple waits"`
when more than one exists. -/
theorem find_by_user_spec (st : InMemory.State) (now : Nat) (ctx : TenantCtx) (user : String)
    (ks : List String) (hks : ks = st.user_waits (InMemory.user_lookup_key ctx user)) :
    (ks.filter (live_match st.sessions now ctx user) = [] →
      (InMemory.find_by_user st now ctx user).1 = Except.ok none) ∧
    (∀ k, ks.filter (live_match st.sessions now ctx user) = [k] →
      ∃ entry, st.sessions k = some entry ∧
        (InMemory.find_by_user st now ctx user).1 = Except.ok (some (k, entry.data))) ∧
    (2 ≤ (ks.filter (live_match st.sessions now ctx user)).length →
      ∃ e rest, (InMemory.find_by_user st now ctx user).1 = Except.error e ∧
        e.code = ErrorCode.invalidInput ∧ e.msg = "multiple waits" ++ rest) := by
  obtain ⟨g1, g2, g3⟩ := list_waits_go_spec now ctx user
    (InMemory.user_lookup_key ctx user) ks st
  have hmain : InMemory.list_waits_for_user st now ctx user =
      InMemory.list_waits_go now ctx user (InMemory.user_lookup_key ctx user) ks st := by
    unfold InMemory.list_waits_for_user
    dsimp only
    rw [← hks]
  refine ⟨?_, ?_, ?_⟩
  · intro hfil
    unfold InMemory.find_by_user
    dsimp only
    rw [hmain]
    rw [show (InMemory.list_waits_go now ctx user (InMemory.user_lookup_key ctx user) ks st).1 =
      [] from g1.trans hfil]
  · intro k hfil
    have hg1 : (InMemory.list_waits_go now ctx user
        (InMemory.user_lookup_key ctx user) ks st).1 = [k] := g1.trans hfil
    have hlive : live_match st.sessions now ctx user k = true := by
      have : k ∈ ks.filter (live_match st.sessions now ctx user) := by
        rw [hfil]
        exact List.mem_singleton_self k
      exact (List.mem_filter.1 this).2
    obtain ⟨entry, hentry, hexp⟩ := live_match_true_elim st.sessions now ctx user k hlive
    have hsess : (InMemory.list_waits_go now ctx user
        (InMemory.user_lookup_key ctx user) ks st).2.sessions k = some entry :=
      (g2 k hlive).trans hentry
    refine ⟨entry, hentry, ?_⟩
    unfold InMemory.find_by_user
    dsimp only
    rw [hmain, hg1]
    dsimp only
    have hget : InMemory.get_session
        (InMemory.list_waits_go now ctx user (InMemory.user_lookup_key ctx user) ks st).2 now k =
        (some entry.data,
          (InMemory.list_waits_go now ctx user (InMemory.user_lookup_key ctx user) ks st).2) := by
      unfold InMemory.get_session
      rw [hsess]
      dsimp only
      rw [if_neg (by simp [hexp])]
    rw [hget]
  · intro hlen
    unfold InMemory.find_by_user
    dsimp only
    rw [hmain]
    rcases hfil : (InMemory.list_waits_go now ctx user
        (InMemory.user_lookup_key ctx user) ks st).1 with _ | ⟨a, _ | ⟨b, tail⟩⟩
    · rw [← g1, hfil] at hlen
      simp at hlen
    · rw [← g1, hfil] at hlen
      simp at hlen
    · exact ⟨_, " exist for user; use scope-based routing instead", rfl, rfl, rfl⟩

/-- Witness for C8: with two live waits registered for the same user bucket,
`find_by_user` fails with `InvalidInput` and a message containing
"multiple waits". -/
theorem find_by_user_spec_witness :
    ∃ e rest, (InMemory.find_by_user stTwoWaits 0 ctxA "u1").1 = Except.error e ∧
      e.code = ErrorCode.invalidInput ∧ e.msg = "multiple waits" ++ rest :=
  (find_by_user_spec stTwoWaits 0 ctxA "u1" ["k1", "k2"] rfl).2.2 (by decide)

/-! ## C9 — deterministic key derivation -/

theorem hexDigit_mem (n : Nat) : hexDigit n ∈ hexDigits := by
  by_cases h : n < 16
  · interval_cases n <;> decide
  · obtain ⟨m, rfl⟩ : ∃ m, n = m + 16 := ⟨n - 16, by omega⟩
    show ('0' : Char) ∈ hexDigits
    decide

theorem hexEncode_length (bytes : List Nat) : (hexEncode bytes).length = 2 * bytes.length := by
  show ((bytes.map (fun b => [hexDigit (b / 16), hexDigit (b % 16)])).flatten).length =
    2 * bytes.length
  induction bytes with
  | nil => rfl
  | cons b rest ih =>
    simp only [List.map_cons, List.flatten_cons, List.length_append, List.length_cons,
      List.length_nil, ih, List.length_cons]
    omega

theorem hexEncode_mem (bytes : List Nat) : ∀ ch ∈ (hexEncode bytes).data, ch ∈ hexDigits := by
  intro ch hch
  have hch2 : ch ∈ (bytes.map (fun b => [hexDigit (b / 16), hexDigit (b % 16)])).flatten := hch
  rcases List.mem_flatten.1 hch2 with ⟨sub, hsub, hin⟩
  rcases List.mem_map.1 hsub with ⟨b, hb, rfl⟩
  simp only [List.mem_cons, List.not_mem_nil, or_false] at hin
  rcases hin with rfl | rfl <;> exact hexDigit_mem _

theorem wordBytes_lt (w : Nat) : ∀ x ∈ Sha256.wordBytes w, x < 256 := by
  intro x hx
  simp only [Sha256.wordBytes, List.mem_cons, List.not_mem_nil, or_false] at hx
  rcases hx with rfl | rfl | rfl | rfl <;> exact Nat.mod_lt _ (by norm_num)

theorem digest_length (msg : List Nat) : (Sha256.digest msg).length = 32 := by
  simp [Sha256.digest, Sha256.wordBytes]

theorem digest_lt (msg : List Nat) : ∀ x ∈ Sha256.digest msg, x < 256 := by
  intro x hx
  simp only [Sha256.digest, List.mem_append] at hx
  rcases hx with ((((((h | h) | h) | h) | h) | h) | h) | h <;> exact wordBytes_lt _ _ h

theorem digest_getD_lt (msg : List Nat) (i : Nat) : (Sha256.digest msg).getD i 0 < 256 := by
  rcases Nat.lt_or_ge i (Sha256.digest msg).length with h | h
  · rw [List.getD_eq_getElem _ _ h]
    exact digest_lt msg _ (List.getElem_mem h)
  · rw [List.getD_eq_default _ _ h]
    norm_num

theorem str_data_append (a b : String) : (a ++ b).data = a.data ++ b.data := rfl

theorem str_append_left_cancel {p x y : String} (h : p ++ x = p ++ y) : x = y := by
  have hd := congrArg String.data h
  rw [str_data_append, str_data_append] at hd
  exact String.ext (List.append_cancel_left hd)

theorem str_append_right_cancel {x y s : String} (h : x ++ s = y ++ s) : x = y := by
  have hd := congrArg String.data h
  rw [str_data_append, str_data_append] at hd
  exact String.ext (List.append_cancel_right hd)

theorem decode_bitString (v : Fin 257 → Bool) (i : Fin 257) :
    decodeBit (bitString v) i = v i := by
  unfold decodeBit bitString
  have hlen : i.val < (List.ofFn (fun i : Fin 257 => if v i then 'a' else 'b')).length := by
    rw [List.length_ofFn]
    exact i.isLt
  rw [List.getD_eq_getElem _ _ hlen, List.getElem_ofFn]
  cases hv : v i with
  | true => simp [Fin.eta, hv]
  | false => simp [Fin.eta, hv]

theorem bitString_injective : Function.Injective bitString := by
  intro v1 v2 hE
  funext i
  have hi := congrArg (fun s => decodeBit s i) hE
  simp only [] at hi
  rw [decode_bitString, decode_bitString] at hi
  exact hi

set_option maxRecDepth 4000 in
/-- Counterexample to C9: "changing any single field changes the key" is
false in general — SHA-256 maps the more than `2^256` single-field variants
of the user field onto at most `2^256` digests, so by the pigeonhole
principle two different user strings share a key (non-constructively). -/
theorem telegram_key_field_injectivity_fails :
    ¬ (∀ b c u u2 : String, u ≠ u2 →
        telegram_update_to_session_key b c u ≠ telegram_update_to_session_key b c u2) := by
  intro h
  let g : (Fin 257 → Bool) → (Fin 32 → Fin 256) := fun v i =>
    ⟨(Sha256.digest (strBytes ("tg:" ++ "bot" ++ ":" ++ "chat" ++ ":" ++ bitString v))).getD i 0,
      digest_getD_lt _ _⟩
  have hcard : Fintype.card (Fin 32 → Fin 256) < Fintype.card (Fin 257 → Bool) := by
    simp only [Fintype.card_fun, Fintype.card_fin, Fintype.card_bool]
    norm_num
  obtain ⟨v1, v2, hne, heq⟩ := Fintype.exists_ne_map_eq_of_card_lt g hcard
  have hdig : Sha256.digest (strBytes ("tg:" ++ "bot" ++ ":" ++ "chat" ++ ":" ++ bitString v1)) =
      Sha256.digest (strBytes ("tg:" ++ "bot" ++ ":" ++ "chat" ++ ":" ++ bitString v2)) := by
    apply List.ext_getElem
    · rw [digest_length, digest_length]
    · intro i h1 h2
      have hi : i < 32 := by rw [digest_length] at h1; exact h1
      have hfi := congrFun heq ⟨i, hi⟩
      have hv := congrArg Fin.val hfi
      simp only [g] at hv
      rw [List.getD_eq_getElem _ _ h1, List.getD_eq_getElem _ _ h2] at hv
      exact hv
  have hkey : telegram_update_to_session_key "bot" "chat" (bitString v1) =
      telegram_update_to_session_key "bot" "chat" (bitString v2) := by
    unfold telegram_update_to_session_key hex_sha
    rw [hdig]
  have hencne : bitString v1 ≠ bitString v2 := fun hE => hne (bitString_injective hE)
  exact h "bot" "chat" (bitString v1) (bitString v2) hencne hkey

/-- C9 amended: key derivation is deterministic and equals the 64-character
lowercase hexadecimal SHA-256 digest of `"tg:" + b + ":" + c + ":" + u`;
changing any single field always changes the hashed preimage string (and the
spec's concrete instances produce distinct keys), but key distinctness in
general is only up to SHA-256 collisions. -/
theorem telegram_key_derivation (b c u b2 c2 u2 : String) :
    telegram_update_to_session_key b c u =
      hexEncode (Sha256.digest (strBytes ("tg:" ++ b ++ ":" ++ c ++ ":" ++ u))) ∧
    telegram_update_to_session_key b c u = telegram_update_to_session_key b c u ∧
    (telegram_update_to_session_key b c u).length = 64 ∧
    (∀ ch ∈ (telegram_update_to_session_key b c u).data, ch ∈ hexDigits) ∧
    (u ≠ u2 → "tg:" ++ b ++ ":" ++ c ++ ":" ++ u ≠ "tg:" ++ b ++ ":" ++ c ++ ":" ++ u2) ∧
    (b ≠ b2 → "tg:" ++ b ++ ":" ++ c ++ ":" ++ u ≠ "tg:" ++ b2 ++ ":" ++ c ++ ":" ++ u) ∧
    (c ≠ c2 → "tg:" ++ b ++ ":" ++ c ++ ":" ++ u ≠ "tg:" ++ b ++ ":" ++ c2 ++ ":" ++ u) ∧
    telegram_update_to_session_key "bot" "chat" "user" ≠
      telegram_update_to_session_key "bot" "chat" "user2" := by
  refine ⟨rfl, rfl, ?_, ?_, ?_, ?_, ?_, by decide⟩
  · show (hexEncode (Sha256.digest (strBytes ("tg:" ++ b ++ ":" ++ c ++ ":" ++ u)))).length = 64
    rw [hexEncode_length, digest_length]
  · exact hexEncode_mem _
  · intro h hE
    exact h (str_append_left_cancel hE)
  · intro h hE
    apply h
    have h1 := str_append_right_cancel hE
    have h2 := str_append_right_cancel h1
    have h3 := str_append_right_cancel h2
    have h4 := str_append_right_cancel h3
    exact str_append_left_cancel h4
  · intro h hE
    apply h
    have h1 := str_append_right_cancel hE
    have h2 := str_append_right_cancel h1
    exact str_append_left_cancel h2

/-- Witness for the amended C9: the spec's concrete instance — distinct user
fields give distinct preimages, and the derived key is 64 characters. -/
theorem telegram_key_derivation_witness :
    "tg:" ++ "bot" ++ ":" ++ "chat" ++ ":" ++ "user" ≠
      "tg:" ++ "bot" ++ ":" ++ "chat" ++ ":" ++ "user2" ∧
    (telegram_update_to_session_key "bot" "chat" "user").length = 64 :=
  ⟨(telegram_key_derivation "bot" "chat" "user" "b2" "c2" "user2").2.2.2.2.1 (by decide),
   (telegram_key_derivation "bot" "chat" "user" "b2" "c2" "user2").2.2.1⟩
